import Mathlib

/-!
# Verification of the StockPlay trading module

A shallow embedding of `pyircbot/modules/StockPlay.py`: a simulated
securities-trading ledger driven by IRC commands.  Python `Decimal`
arithmetic is embedded as exact arithmetic over `ℚ` (quote strings are
parsed to exact decimal fractions); SQLite tables are embedded as
association lists keyed the way each table's primary key dictates;
Python exceptions are an explicit error type; the upstream HTTP quote
fetch is a parameter supplying its outcome.
-/

namespace StockPlay

/-- Python runtime errors that the module's code paths can raise:
`attributeError` (e.g. `None.items()`), `typeError` (e.g. `None["cents"]`),
`fetchError` (a `requests` transport error or timeout). -/
inductive PyErr
  | attributeError
  | typeError
  | fetchError
  deriving DecidableEq, Repr

/-- `int(Decimal)` in Python truncates toward zero. -/
def rfloor (q : ℚ) : ℤ := q.num.fdiv q.den

/-- Exact ceiling of a rational, as `math.ceil` on a `Decimal`. -/
def rceil (q : ℚ) : ℤ := -(rfloor (-q))

/-- Python `int()` conversion: truncation toward zero. -/
def truncInt (q : ℚ) : ℤ := if 0 ≤ q then rfloor q else rceil q

theorem rfloor_eq (q : ℚ) : rfloor q = ⌊q⌋ := by
  rw [rfloor, Rat.floor_def]
  exact Int.fdiv_eq_ediv _ (Int.ofNat_nonneg _)

theorem rceil_eq (q : ℚ) : rceil q = ⌈q⌉ := by
  rw [rceil, rfloor_eq, ← Int.ceil_neg, neg_neg]

theorem rceil_nonneg {q : ℚ} (h : 0 ≤ q) : 0 ≤ rceil q := by
  rw [rceil_eq]; exact_mod_cast Int.ceil_nonneg (by exact_mod_cast h)

theorem truncInt_nonneg {q : ℚ} (h : 0 ≤ q) : 0 ≤ truncInt q := by
  rw [truncInt, if_pos h, rfloor_eq]
  exact_mod_cast Int.floor_nonneg.mpr (by exact_mod_cast h)

/-- The distinguished dust pseudo-account (`DUSTACCT = "#dust"`). -/
def DUSTACCT : String := "#dust"

/-- Normalized quote payload cached per symbol.  The module parses the
numeric fields of the provider payload to `Decimal`; the claims under
study only consume the `price` field, so the payload is embedded as the
parsed price (other fields ride along in the Python dict unchanged). -/
structure PriceInfo where
  price : ℚ
  deriving DecidableEq, Repr

/-- A `stockplay_prices` row: `symbol` (primary key), `time`, `data`. -/
structure PriceRow where
  symbol : String
  time : ℤ
  data : PriceInfo
  deriving DecidableEq, Repr

/-- A `stockplay_trades` row (append-only log). -/
structure TradeRow where
  nick : String
  time : ℤ
  type : String
  symbol : String
  count : ℤ
  price : ℤ
  deriving DecidableEq, Repr

/-- A `stockplay_balance_history` row, primary key `(nick, day)`. -/
structure HistRow where
  nick : String
  day : String
  cents : ℤ
  deriving DecidableEq, Repr

/-- The `stockplay.db` database.
`balances` is keyed by nick (primary key), `holdings` by `(nick, symbol)`. -/
structure DB where
  balances : List (String × ℤ)
  holdings : List (String × String × ℤ)
  trades : List TradeRow
  prices : List PriceRow
  history : List HistRow
  deriving DecidableEq, Repr

/-- `SELECT * FROM stockplay_balances WHERE nick=?` followed by `fetchone()`:
the row's `cents` column, or `none` when no row matches. -/
def fetchone_bal (db : DB) (nick : String) : Option ℤ :=
  (db.balances.find? (fun r => r.1 = nick)).map (fun r => r.2)

/-- `get_bal`: subscripting the fetched row raises `TypeError` when the
nick has no balances row (`None["cents"]`). -/
def get_bal (db : DB) (nick : String) : Except PyErr ℤ :=
  match fetchone_bal db nick with
  | none => .error .typeError
  | some cents => .ok cents

/-- `set_bal`: `REPLACE INTO stockplay_balances` (primary key `nick`). -/
def set_bal (db : DB) (nick : String) (amount : ℤ) : DB :=
  { db with balances := (nick, amount) :: db.balances.filter (fun r => ¬(r.1 = nick)) }

/-- `get_holding`: the `count` of the `(nick, symbol)` row, or `0` when absent. -/
def get_holding (db : DB) (nick symbol : String) : ℤ :=
  match db.holdings.find? (fun r => r.1 = nick ∧ r.2.1 = symbol) with
  | some r => r.2.2
  | none => 0

/-- `set_holding`: `REPLACE INTO stockplay_holdings` (primary key `(nick, symbol)`). -/
def set_holding (db : DB) (nick symbol : String) (count : ℤ) : DB :=
  { db with holdings :=
      (nick, symbol, count) :: db.holdings.filter (fun r => ¬(r.1 = nick ∧ r.2.1 = symbol)) }

/-- `log_trade`: `INSERT INTO stockplay_trades` (append-only). -/
def log_trade (db : DB) (nick : String) (tm : ℤ) (ty symbol : String) (count price : ℤ) : DB :=
  { db with trades := db.trades ++ [⟨nick, tm, ty, symbol, count, price⟩] }

/-- `nick_exists`: `SELECT COUNT(*) ... and True`. -/
def nick_exists (db : DB) (name : String) : Bool :=
  db.balances.any (fun r => r.1 = name)

/-- `check_nick`: bootstrap an account with `startbalance * 100` cents
when the nick has no balances row yet. -/
def check_nick (db : DB) (startbalance : ℤ) (nick : String) : DB :=
  if nick_exists db nick then db else set_bal db nick (startbalance * 100)

/-! ## Price cache (`stockplay_prices`) -/

/-- `_get_cache_priceinfo`: return the cached payload unless the row is
absent or `time() - row["time"] > thresh`. -/
def get_cache_priceinfo (db : DB) (now : ℤ) (symbol : String) (thresh : ℤ) : Option PriceInfo :=
  match db.prices.find? (fun r => r.symbol = symbol) with
  | none => none
  | some row => if now - row.time > thresh then none else some row.data

/-- `_set_cache_priceinfo`: `REPLACE INTO stockplay_prices` (primary key `symbol`). -/
def set_cache_priceinfo (db : DB) (now : ℤ) (symbol : String) (data : PriceInfo) : DB :=
  { db with prices := ⟨symbol, now, data⟩ :: db.prices.filter (fun r => ¬(r.symbol = symbol)) }

/-- The outcome of one upstream `fetch_priceinfo` call:
`.error` for a transport error or timeout, `.ok none` for an empty
`"Global Quote"` response (`fetch_priceinfo` returns `None`), and
`.ok (some d)` for a normalized payload. -/
abbrev FetchOutcome := Except PyErr (Option PriceInfo)

/-- `get_priceinfo_cached`: cached payload when fresh; otherwise run the
upstream fetch, cache a non-`None` result, and build the decimal-parsed
dict.  When the fetch returned `None` (unknown symbol) the final dict
comprehension evaluates `None.items()` and raises `AttributeError`.
The third component records whether the upstream fetch was invoked. -/
def get_priceinfo_cached (db : DB) (now : ℤ) (symbol : String) (thresh : ℤ)
    (fetch : FetchOutcome) : Except PyErr PriceInfo × DB × Bool :=
  match get_cache_priceinfo db now symbol thresh with
  | some cached => (.ok cached, db, false)
  | none =>
    match fetch with
    | .error e => (.error e, db, true)
    | .ok none => (.error .attributeError, db, true)
    | .ok (some cached) => (.ok cached, set_cache_priceinfo db now symbol cached, true)

/-- Python `thresh or 60` in `get_price`: `None` and `0` both fall back to `60`. -/
def effthresh (thresh : Option ℤ) : ℤ :=
  match thresh with
  | none => 60
  | some t => if t = 0 then 60 else t

/-- `get_price`: `get_priceinfo_cached(symbol, thresh or 60)["price"]`. -/
def get_price (db : DB) (now : ℤ) (symbol : String) (thresh : Option ℤ)
    (fetch : FetchOutcome) : Except PyErr ℚ × DB × Bool :=
  match get_priceinfo_cached db now symbol (effthresh thresh) fetch with
  | (r, db', c) => (r.map (fun d => d.price), db', c)

/-! ## Trade engine (`do_trade`) -/

/-- The `Trade` namedtuple queued by the buy/sell commands. -/
structure Trade where
  nick : String
  buy : Bool
  symbol : String
  amount : ℤ
  replyto : String
  deriving DecidableEq, Repr

/-- The distinct `act_PRIVMSG` reply lines the module can emit (wording
abbreviated to the identifying fields; each constructor is one distinct
format string in the source). -/
inductive Msg
  /-- `"{}: invalid symbol or api failure, trade aborted!"` -/
  | apifailure (replyto nick : String)
  /-- `"{}: invalid symbol '{}'"` -/
  | invalidsymbol (replyto nick symbol : String)
  /-- `"{}: you can't afford {}."` -/
  | cantafford (replyto nick : String) (price : ℤ)
  /-- `"{}: you don't have that many."` -/
  | notenough (replyto nick : String)
  /-- `"{}: {} {} {} for {}. cash: {}"` -/
  | traded (replyto nick : String) (buy : Bool) (amount : ℤ) (symbol : String) (price newbal : ℤ)
  /-- `"{}: {} cash: {} stock value: ~{} total: ~{} (24h {})"` -/
  | reportsummary (dest sender lookup : String) (cash hv gain : ℚ)
  /-- one tabulated holdings line of a full report -/
  | reportline (dest sender symbol : String)
  deriving DecidableEq, Repr

/-- The body of `do_trade` after the quote lookup: `priceResult` is the
value of `symprice` (`.error` when `get_price` raised, which the
surrounding `try` turns into the api-failure reply; the code also guards
against `symprice is None`).  Returns the database, the replies sent,
and the uncaught exception if one was raised. -/
def do_trade (db : DB) (now : ℤ) (trade : Trade) (priceResult : Except PyErr (Option ℚ)) :
    DB × List Msg × Option PyErr :=
  match priceResult with
  | .error _ => (db, [.apifailure trade.replyto trade.nick], none)
  | .ok none => (db, [.invalidsymbol trade.replyto trade.nick trade.symbol], none)
  | .ok (some symprice) =>
    let dprice := symprice * (trade.amount : ℚ)
    let price_rounded := rceil (dprice * 100)
    let dust := |dprice * 100 - (price_rounded : ℚ)|
    match fetchone_bal db trade.nick with
    | none => (db, [], some .typeError)
    | some nickbal₀ =>
      let count₀ := get_holding db trade.nick trade.symbol
      if trade.buy ∧ nickbal₀ < price_rounded then
        (db, [.cantafford trade.replyto trade.nick price_rounded], none)
      else if ¬trade.buy ∧ trade.amount > count₀ then
        (db, [.notenough trade.replyto trade.nick], none)
      else
        let nickbal := if trade.buy then nickbal₀ - price_rounded else nickbal₀ + price_rounded
        let count := if trade.buy then count₀ + trade.amount else count₀ - trade.amount
        let db₁ := set_bal db trade.nick nickbal
        let db₂ := set_holding db₁ trade.nick trade.symbol count
        match fetchone_bal db₂ DUSTACCT with
        | none => (db₂, [], some .typeError)
        | some dustbal =>
          let db₃ := set_bal db₂ DUSTACCT (dustbal + truncInt (dust * 100))
          let db₄ := log_trade db₃ trade.nick now (if trade.buy then "buy" else "sell")
                       trade.symbol trade.amount price_rounded
          (db₄, [.traded trade.replyto trade.nick trade.buy trade.amount trade.symbol
                   price_rounded nickbal], none)

/-- `do_trade` including its quote lookup:
`symprice = self.get_price(trade.symbol, self.config["tcachesecs"])`. -/
def do_trade_full (db : DB) (now tcachesecs : ℤ) (trade : Trade) (fetch : FetchOutcome) :
    DB × List Msg × Option PyErr :=
  match get_price db now trade.symbol (some tcachesecs) fetch with
  | (pr, db', _) => do_trade db' now trade (pr.map some)

/-- A sequence of queued trades processed one at a time by the executor,
each with the outcome of its quote lookup. -/
def run_trades (db : DB) (now : ℤ) : List (Trade × Except PyErr (Option ℚ)) → DB
  | [] => db
  | (t, pr) :: rest => run_trades (do_trade db now t pr).1 now rest

/-- The per-trade rounding fragment
`dust = abs(dprice * 100 - price_rounded)`, in (fractional) cents. -/
def dust_fragment (symprice : ℚ) (amount : ℤ) : ℚ :=
  let dprice := symprice * (amount : ℚ)
  |dprice * 100 - (rceil (dprice * 100) : ℚ)|

/-- A queued trade commits exactly when it appends a `TradeRecord`. -/
def trade_commits (db : DB) (now : ℤ) (trade : Trade)
    (pr : Except PyErr (Option ℚ)) : Bool :=
  db.trades.length < (do_trade db now trade pr).1.trades.length

/-- The number of cents `do_trade` credits to the dust account for one
queued trade: `int(dust * 100)` when the trade commits, `0` otherwise. -/
def dust_credit (db : DB) (now : ℤ) (trade : Trade) (pr : Except PyErr (Option ℚ)) : ℤ :=
  match pr with
  | .ok (some p) =>
    if trade_commits db now trade pr then truncInt (dust_fragment p trade.amount * 100) else 0
  | _ => 0

/-- Total dust credited over a sequence of queued trades. -/
def total_dust_credits (db : DB) (now : ℤ) : List (Trade × Except PyErr (Option ℚ)) → ℤ
  | [] => 0
  | (t, pr) :: rest => dust_credit db now t pr + total_dust_credits (do_trade db now t pr).1 now rest

/-- The dust account's persisted balance (`0` before its row exists). -/
def dustBal (db : DB) : ℤ := (fetchone_bal db DUSTACCT).getD 0

/-! ## Commands (`cmd_buy`, `cmd_sell`) -/

/-- `RE_SYMBOL = re.compile(r'^([A-Z\-]+)$')` applied to a string. -/
def RE_SYMBOL_match (s : String) : Bool :=
  !s.toList.isEmpty && s.toList.all (fun c => ('A' ≤ c && c ≤ 'Z') || c = '-')

/-- `str.upper()` restricted to the ASCII casing the symbol regex accepts. -/
def upperStr (s : String) : String := String.mk (s.toList.map Char.toUpper)

/-- `checksym`: length limit, uppercase, regex; `None` on failure. -/
def checksym (s : String) : Option String :=
  if 12 < s.length then none
  else
    let u := upperStr s
    if RE_SYMBOL_match u then some u else none

/-- `message.args[0].startswith("#")`. -/
def startsHash (s : String) : Bool :=
  match s.toList with
  | c :: _ => c = '#'
  | [] => false

/-- What a command handler does: enqueue work for the executor.  The
buy/sell handlers never send replies themselves. -/
inductive Action
  | enqueueTrade (t : Trade)
  | enqueueReport (lookup sender replyto : String) (full : Bool)
  deriving DecidableEq, Repr

/-- `cmd_buy`: bootstrap the account, validate the symbol and amount,
silently return on failure, otherwise enqueue the trade. -/
def cmd_buy (db : DB) (startbalance : ℤ) (nick : String) (amount : ℤ)
    (symbolArg chan : String) : DB × List Action :=
  let db := check_nick db startbalance nick
  match checksym symbolArg with
  | none => (db, [])
  | some symbol =>
    if amount ≤ 0 then (db, [])
    else (db, [.enqueueTrade ⟨nick, true, symbol, amount,
                if startsHash chan then chan else nick⟩])

/-- `cmd_sell`: identical to `cmd_buy` with `buy=False`. -/
def cmd_sell (db : DB) (startbalance : ℤ) (nick : String) (amount : ℤ)
    (symbolArg chan : String) : DB × List Action :=
  let db := check_nick db startbalance nick
  match checksym symbolArg with
  | none => (db, [])
  | some symbol =>
    if amount ≤ 0 then (db, [])
    else (db, [.enqueueTrade ⟨nick, false, symbol, amount,
                if startsHash chan then chan else nick⟩])

/-! ## Cost-basis reconstruction (`calc_user_avgbuy`) -/

/-- `ORDER BY time DESC` on the trade log. -/
def byTimeDesc (a b : TradeRow) : Prop := b.time ≤ a.time

instance : DecidableRel byTimeDesc := fun a b => inferInstanceAs (Decidable (b.time ≤ a.time))

/-- `SELECT * FROM stockplay_trades WHERE nick=? AND symbol=? ORDER BY time DESC`. -/
def trades_desc (db : DB) (nick symbol : String) : List TradeRow :=
  (db.trades.filter (fun r => r.nick = nick ∧ r.symbol = symbol)).insertionSort byTimeDesc

/-- The backtracking loop of `calc_user_avgbuy`: accumulate signed
`count` and `spent`, breaking as soon as `count == target_count`. -/
def avgbuy_loop (target : ℤ) : List TradeRow → ℤ → ℤ → ℤ × ℤ
  | [], count, spent => (count, spent)
  | row :: rest, count, spent =>
    let count := count + row.count * (if row.type = "buy" then 1 else -1)
    let spent := spent + row.price * (if row.type = "buy" then 1 else -1)
    if count = target then (count, spent) else avgbuy_loop target rest count spent

/-- `calc_user_avgbuy`: backtrack through the user's trade history until
the running count matches the current holding, then average. -/
def calc_user_avgbuy (db : DB) (nick symbol : String) : ℚ :=
  let target_count := get_holding db nick symbol
  match avgbuy_loop target_count (trades_desc db nick symbol) 0 0 with
  | (count, spent) => if count = 0 then 0 else (spent : ℚ) / 100 / (count : ℚ)

/-- Modelled from the spec (§4.3), for comparison with `calc_user_avgbuy`:
walk the records newest-to-oldest keeping running `count` (buys add,
sells subtract) and `spent` (buys add price, sells subtract price),
stopping as soon as running `count` equals the target; the walk is a
fold whose state freezes once the stop condition has been met. -/
def specStep (target : ℤ) (st : ℤ × ℤ × Bool) (row : TradeRow) : ℤ × ℤ × Bool :=
  if st.2.2 then st
  else
    let c := st.1 + (if row.type = "buy" then row.count else -row.count)
    let s := st.2.1 + (if row.type = "buy" then row.price else -row.price)
    (c, s, c = target)

/-- Modelled from the spec (§4.3): the walk over the records, newest to
oldest, frozen once the stop condition has been met. -/
def specWalk (target : ℤ) (rows : List TradeRow) : ℤ × ℤ × Bool :=
  rows.foldl (specStep target) (0, 0, false)

/-- Modelled from the spec (§4.3): average price is `spent / 100 / count`
dollars over the walked lot, or zero for a fully closed position. -/
def averageBuyPrice_spec (db : DB) (nick symbol : String) : ℚ :=
  let target := get_holding db nick symbol
  match specWalk target (trades_desc db nick symbol) with
  | (count, spent, _) => if count = 0 then 0 else (spent : ℚ) / 100 / (count : ℚ)

/-! ## Background price sweep (`price_updater`) -/

/-- `ORDER BY time ASC` on the price cache. -/
def byTimeAsc (a b : PriceRow) : Prop := a.time ≤ b.time

instance : DecidableRel byTimeAsc := fun a b => inferInstanceAs (Decidable (a.time ≤ b.time))

instance : IsTotal PriceRow byTimeAsc := ⟨fun a b => Int.le_total a.time b.time⟩

instance : IsTrans PriceRow byTimeAsc := ⟨fun _ _ _ h h' => le_trans h h'⟩

/-- `SELECT symbol FROM stockplay_holdings WHERE count>0`. -/
def held_symbols (db : DB) : List String :=
  (db.holdings.filter (fun r => 0 < r.2.2)).map (fun r => r.2.1)

/-- The row selected by one `price_updater` iteration:
`SELECT * FROM stockplay_prices WHERE symbol in (SELECT symbol FROM
stockplay_holdings WHERE count>0) ORDER BY time ASC LIMIT 1`. -/
def price_updater_row (db : DB) : Option PriceRow :=
  ((db.prices.filter (fun r => (held_symbols db).contains r.symbol)).insertionSort byTimeAsc).head?

/-- `updatesym = row["symbol"] if row else None`. -/
def price_updater_select (db : DB) : Option String :=
  (price_updater_row db).map (fun r => r.symbol)

/-! ## Report builder (`build_report`) and housekeeping -/

/-- `calc_gain`: `(end - start) / start`, zero for a zero start. -/
def calc_gain (start finish : ℚ) : ℚ :=
  if start = 0 then 0 else (finish - start) / start

/-- `ORDER BY count DESC` on holdings. -/
def byCountDesc (a b : String × String × ℤ) : Prop := b.2.2 ≤ a.2.2

instance : DecidableRel byCountDesc := fun a b => inferInstanceAs (Decidable (b.2.2 ≤ a.2.2))

/-- `symbol_count.sort(key=lambda x: x[0])`. -/
def bySymbolAsc (a b : String × ℤ × ℚ × ℚ × ℚ) : Prop := a.1 ≤ b.1

instance : DecidableRel bySymbolAsc := fun a b => inferInstanceAs (Decidable (a.1 ≤ b.1))

/-- `ORDER BY DAY DESC` on the balance history. -/
def byDayDesc (a b : HistRow) : Prop := b.day ≤ a.day

instance : DecidableRel byDayDesc := fun a b => inferInstanceAs (Decidable (b.day ≤ a.day))

/-- `get_latest_hist_bal`: most recent daily balance row, if any. -/
def get_latest_hist_bal (db : DB) (nick : String) : Option HistRow :=
  ((db.history.filter (fun r => r.nick = nick)).insertionSort byDayDesc).head?

/-- The dict returned by `build_report`. -/
structure Report where
  cash : ℚ
  holdings : List (String × ℤ × ℚ × ℚ × ℚ)
  holding_value : ℚ
  gain_value : ℚ
  gain_pct : ℚ
  deriving DecidableEq, Repr

/-- `build_report`.  The per-symbol quote reads
(`get_price(symbol, rcachesecs)`) are supplied by the oracle `priceOf`,
standing for a price-cache read that succeeded with that value; the
cache itself is modelled by `get_priceinfo_cached`.  The first statement
is `get_bal(nick)`, which raises for a nick with no balances row. -/
def build_report (priceOf : String → ℚ) (db : DB) (nick : String) : Except PyErr Report :=
  match get_bal db nick with
  | .error e => .error e
  | .ok bal =>
    let cash : ℚ := (bal : ℚ) / 100
    let myrows := (db.holdings.filter (fun r => 0 < r.2.2 ∧ r.1 = nick)).insertionSort byCountDesc
    let symbol_count := myrows.map (fun r =>
      let symprice := priceOf r.2.1
      let avgbuy := calc_user_avgbuy db nick r.2.1
      (r.2.1, r.2.2, symprice, avgbuy, calc_gain avgbuy symprice))
    let holding_value := (myrows.map (fun r => priceOf r.2.1 * (r.2.2 : ℚ))).sum
    let symbol_count := symbol_count.insertionSort bySymbolAsc
    match get_latest_hist_bal db nick with
    | none => .ok ⟨cash, symbol_count, holding_value, 0, 0⟩
    | some day_start_bal =>
      let startbal := (day_start_bal.cents : ℚ) / 100
      .ok ⟨cash, symbol_count, holding_value, cash + holding_value - startbal,
           calc_gain startbal (cash + holding_value)⟩

/-- `do_report`: build the report and emit the summary line, plus one
tabulated line per holding for a full report; `dest` is the sender for a
full report, the reply target otherwise. -/
def do_report (priceOf : String → ℚ) (db : DB) (lookup sender replyto : String) (full : Bool) :
    Except PyErr (List Msg) :=
  match build_report priceOf db lookup with
  | .error e => .error e
  | .ok data =>
    let dest := if full then sender else replyto
    .ok (.reportsummary dest sender lookup data.cash data.holding_value data.gain_value ::
         if full then data.holdings.map (fun h => Msg.reportline dest sender h.1) else [])

/-- One `portreport` task as the executor runs it: `trader_background`
catches every exception from `do_report`, so a raised error means no
reply line is ever sent. -/
def trader_portreport (priceOf : String → ℚ) (db : DB) (lookup sender replyto : String)
    (full : Bool) : List Msg :=
  match do_report priceOf db lookup sender replyto full with
  | .error _ => []
  | .ok msgs => msgs

/-- The value inserted by the nightly sweep:
`int((data["cash"] + data["holding_value"]) * 100)`. -/
def report_total (priceOf : String → ℚ) (db : DB) (nick : String) : Except PyErr ℤ :=
  match build_report priceOf db nick with
  | .error e => .error e
  | .ok data => .ok (truncInt ((data.cash + data.holding_value) * 100))

/-- The insert loop of `record_nightly_balances`; an exception aborts the
remainder of the sweep (it propagates to `trader_background`). -/
def nightly_loop (priceOf : String → ℚ) (day : String) :
    List (String × ℤ) → DB → DB × Option PyErr
  | [], db => (db, none)
  | r :: rest, db =>
    match report_total priceOf db r.1 with
    | .error e => (db, some e)
    | .ok total => nightly_loop priceOf day rest
        { db with history := db.history ++ [⟨r.1, day, total⟩] }

/-- `record_nightly_balances`: for every balances row whose nick has no
history row for `day` (`WHERE nick NOT IN (SELECT nick FROM
stockplay_balance_history WHERE day=?)`, snapshotted by `fetchall()`
before the loop), insert one `(nick, day, total)` row. -/
def record_nightly_balances (priceOf : String → ℚ) (db : DB) (day : String) :
    DB × Option PyErr :=
  nightly_loop priceOf day
    (db.balances.filter (fun r => ¬ db.history.any (fun h => h.nick = r.1 ∧ h.day = day))) db

/-! ## Concrete fixtures used by witnesses and counterexamples -/

/-- A database with one funded account and the dust account, as created
on first trade: `alice` holds `100000` cents. -/
def dbAlice : DB := ⟨[("alice", 100000), (DUSTACCT, 0)], [], [], [], []⟩

/-- A buy of one share of `ABC` by `alice`. -/
def tradeABC : Trade := ⟨"alice", true, "ABC", 1, "#chan"⟩

/-- A quoted unit price of `$10.005`, producing a half-cent rounding
fragment on a one-share trade. -/
def quoteDust : ℚ := mkRat 2001 200

/-- An account with 500 cents (the insufficient-funds scenario). -/
def dbPoor : DB := ⟨[("bob", 500), (DUSTACCT, 0)], [], [], [], []⟩

/-- `bob` attempts to buy 1 share of `SYM`. -/
def tradePoor : Trade := ⟨"bob", true, "SYM", 1, "#chan"⟩

/-- A database where `u` holds both `A` and `B`, but only `B` has a
price-cache row (time `5`). -/
def dbSweep : DB := ⟨[("u", 100)], [("u", "A", 1), ("u", "B", 1)], [], [⟨"B", 5, ⟨10⟩⟩], []⟩

/-- A database with one cached quote for `MSFT` at time `100`. -/
def dbCached : DB := ⟨[], [], [], [⟨"MSFT", 100, ⟨50⟩⟩], []⟩

/-! ## Helper lemmas -/

theorem rceil_eval (q : ℚ) : rceil q = -⌊-q⌋ := by rw [rceil, rfloor_eq]

theorem truncInt_eval (q : ℚ) : truncInt q = if 0 ≤ q then ⌊q⌋ else -⌊-q⌋ := by
  rw [truncInt, rfloor_eq, rceil_eval]

theorem find?_filter_of_imp {α : Type} (l : List α) (p q : α → Bool)
    (h : ∀ x, p x = true → q x = true) : (l.filter q).find? p = l.find? p := by
  induction l with
  | nil => rfl
  | cons x xs ih =>
    by_cases hp : p x = true
    · rw [List.filter_cons, if_pos (h x hp), List.find?_cons_of_pos _ hp,
        List.find?_cons_of_pos _ hp]
    · rw [List.filter_cons]
      by_cases hq : q x = true
      · rw [if_pos hq, List.find?_cons_of_neg _ hp, List.find?_cons_of_neg _ hp, ih]
      · rw [if_neg hq, List.find?_cons_of_neg _ hp, ih]

theorem fetchone_bal_set_bal (db : DB) (n : String) (v : ℤ) (m : String) :
    fetchone_bal (set_bal db n v) m = if m = n then some v else fetchone_bal db m := by
  by_cases h : m = n
  · subst h
    simp [fetchone_bal, set_bal]
  · rw [if_neg h]
    show ((((n, v) :: db.balances.filter _).find? _).map _) = _
    rw [List.find?_cons_of_neg, find?_filter_of_imp]
    · rfl
    · intro x hx
      simp only [decide_eq_true_eq] at hx ⊢
      exact fun hxn => h (by rw [← hx, hxn])
    · simp only [decide_eq_true_eq]
      exact fun hnm => h hnm.symm

theorem fetchone_bal_set_holding (db : DB) (n s : String) (c : ℤ) (m : String) :
    fetchone_bal (set_holding db n s c) m = fetchone_bal db m := rfl

theorem fetchone_bal_log_trade (db : DB) (n : String) (tm : ℤ) (ty s : String) (c p : ℤ)
    (m : String) : fetchone_bal (log_trade db n tm ty s c p) m = fetchone_bal db m := rfl

theorem trades_set_bal (db : DB) (n : String) (v : ℤ) : (set_bal db n v).trades = db.trades := rfl

theorem trades_set_holding (db : DB) (n s : String) (c : ℤ) :
    (set_holding db n s c).trades = db.trades := rfl

theorem trades_log_trade (db : DB) (n : String) (tm : ℤ) (ty s : String) (c p : ℤ) :
    (log_trade db n tm ty s c p).trades = db.trades ++ [⟨n, tm, ty, s, c, p⟩] := rfl

/-- `price_rounded = int(ceil(dprice * 100))`: the consideration in cents. -/
def tcost (p : ℚ) (amount : ℤ) : ℤ := rceil (p * (amount : ℚ) * 100)

/-- The ledger state after the balance/holding updates of a committing
trade but before the dust credit. -/
def pre_dust_db (db : DB) (t : Trade) (p : ℚ) (b : ℤ) : DB :=
  set_holding (set_bal db t.nick (if t.buy then b - tcost p t.amount else b + tcost p t.amount))
    t.nick t.symbol
    (if t.buy then get_holding db t.nick t.symbol + t.amount
     else get_holding db t.nick t.symbol - t.amount)

/-- The ledger state after a fully committed trade. -/
def post_trade_db (db : DB) (now : ℤ) (t : Trade) (p : ℚ) (b d : ℤ) : DB :=
  log_trade
    (set_bal (pre_dust_db db t p b) DUSTACCT (d + truncInt (dust_fragment p t.amount * 100)))
    t.nick now (if t.buy then "buy" else "sell") t.symbol t.amount (tcost p t.amount)

theorem tcost_fold (p : ℚ) (a : ℤ) : rceil (p * (a : ℚ) * 100) = tcost p a := rfl

theorem pre_dust_fold (db : DB) (t : Trade) (p : ℚ) (b : ℤ) :
    set_holding (set_bal db t.nick (if t.buy then b - tcost p t.amount else b + tcost p t.amount))
      t.nick t.symbol
      (if t.buy then get_holding db t.nick t.symbol + t.amount
       else get_holding db t.nick t.symbol - t.amount) = pre_dust_db db t p b := rfl

theorem do_trade_fetcherr (db : DB) (now : ℤ) (t : Trade) (e : PyErr) :
    do_trade db now t (.error e) = (db, [.apifailure t.replyto t.nick], none) := rfl

theorem do_trade_nonequote (db : DB) (now : ℤ) (t : Trade) :
    do_trade db now t (.ok none) = (db, [.invalidsymbol t.replyto t.nick t.symbol], none) := rfl

theorem do_trade_nonick (db : DB) (now : ℤ) (t : Trade) (p : ℚ)
    (h : fetchone_bal db t.nick = none) :
    do_trade db now t (.ok (some p)) = (db, [], some .typeError) := by
  simp only [do_trade, h]

theorem do_trade_cantafford (db : DB) (now : ℤ) (t : Trade) (p : ℚ) (b : ℤ)
    (hb : fetchone_bal db t.nick = some b) (hbuy : t.buy = true) (hlt : b < tcost p t.amount) :
    do_trade db now t (.ok (some p)) =
      (db, [.cantafford t.replyto t.nick (tcost p t.amount)], none) := by
  simp only [do_trade, hb, tcost_fold]
  rw [if_pos ⟨hbuy, hlt⟩]

theorem do_trade_notenough (db : DB) (now : ℤ) (t : Trade) (p : ℚ) (b : ℤ)
    (hb : fetchone_bal db t.nick = some b) (hsell : t.buy = false)
    (hgt : t.amount > get_holding db t.nick t.symbol) :
    do_trade db now t (.ok (some p)) = (db, [.notenough t.replyto t.nick], none) := by
  simp only [do_trade, hb, tcost_fold, Bool.not_eq_true]
  rw [if_neg (fun hc => by rw [hsell] at hc; exact Bool.false_ne_true hc.1),
    if_pos ⟨hsell, hgt⟩]

theorem do_trade_commit_nodust (db : DB) (now : ℤ) (t : Trade) (p : ℚ) (b : ℤ)
    (hb : fetchone_bal db t.nick = some b)
    (hg1 : ¬(t.buy = true ∧ b < tcost p t.amount))
    (hg2 : ¬(t.buy = false ∧ t.amount > get_holding db t.nick t.symbol))
    (hd : fetchone_bal (pre_dust_db db t p b) DUSTACCT = none) :
    do_trade db now t (.ok (some p)) = (pre_dust_db db t p b, [], some .typeError) := by
  simp only [do_trade, hb, tcost_fold, Bool.not_eq_true, pre_dust_fold]
  rw [if_neg hg1, if_neg hg2, hd]

theorem do_trade_commit (db : DB) (now : ℤ) (t : Trade) (p : ℚ) (b d : ℤ)
    (hb : fetchone_bal db t.nick = some b)
    (hg1 : ¬(t.buy = true ∧ b < tcost p t.amount))
    (hg2 : ¬(t.buy = false ∧ t.amount > get_holding db t.nick t.symbol))
    (hd : fetchone_bal (pre_dust_db db t p b) DUSTACCT = some d) :
    do_trade db now t (.ok (some p)) =
      (post_trade_db db now t p b d,
       [.traded t.replyto t.nick t.buy t.amount t.symbol (tcost p t.amount)
          (if t.buy then b - tcost p t.amount else b + tcost p t.amount)],
       none) := by
  simp only [do_trade, hb, tcost_fold, Bool.not_eq_true, pre_dust_fold]
  rw [if_neg hg1, if_neg hg2, hd]
  simp only [post_trade_db, dust_fragment, tcost]

theorem fetchone_pre_dust (db : DB) (t : Trade) (p : ℚ) (b : ℤ) (hn : t.nick ≠ DUSTACCT) :
    fetchone_bal (pre_dust_db db t p b) DUSTACCT = fetchone_bal db DUSTACCT := by
  rw [pre_dust_db, fetchone_bal_set_holding, fetchone_bal_set_bal,
    if_neg (fun h => hn h.symm)]

theorem dustBal_post_trade (db : DB) (now : ℤ) (t : Trade) (p : ℚ) (b d : ℤ) :
    dustBal (post_trade_db db now t p b d) = d + truncInt (dust_fragment p t.amount * 100) := by
  rw [dustBal, post_trade_db, fetchone_bal_log_trade, fetchone_bal_set_bal, if_pos rfl]
  rfl

theorem trades_pre_dust (db : DB) (t : Trade) (p : ℚ) (b : ℤ) :
    (pre_dust_db db t p b).trades = db.trades := rfl

theorem trades_post_trade (db : DB) (now : ℤ) (t : Trade) (p : ℚ) (b d : ℤ) :
    (post_trade_db db now t p b d).trades =
      db.trades ++ [⟨t.nick, now, if t.buy then "buy" else "sell", t.symbol, t.amount,
        tcost p t.amount⟩] := by
  rw [post_trade_db, trades_log_trade, trades_set_bal, trades_pre_dust]

/-- One `do_trade` call moves the dust account's balance by exactly the
credit `dust_credit` computes for it (the trading nick is not the dust
account itself, which never trades). -/
theorem dustBal_do_trade (db : DB) (now : ℤ) (t : Trade) (pr : Except PyErr (Option ℚ))
    (hn : t.nick ≠ DUSTACCT) :
    dustBal (do_trade db now t pr).1 = dustBal db + dust_credit db now t pr := by
  match pr with
  | .error e => rw [do_trade_fetcherr]; simp [dust_credit]
  | .ok none => rw [do_trade_nonequote]; simp [dust_credit]
  | .ok (some p) =>
    cases hb : fetchone_bal db t.nick with
    | none =>
      have hres := do_trade_nonick db now t p hb
      rw [hres]
      simp [dust_credit, trade_commits, hres]
    | some b =>
      by_cases hg1 : t.buy = true ∧ b < tcost p t.amount
      · have hres := do_trade_cantafford db now t p b hb hg1.1 hg1.2
        rw [hres]
        simp [dust_credit, trade_commits, hres]
      · by_cases hg2 : t.buy = false ∧ t.amount > get_holding db t.nick t.symbol
        · have hres := do_trade_notenough db now t p b hb hg2.1 hg2.2
          rw [hres]
          simp [dust_credit, trade_commits, hres]
        · cases hd : fetchone_bal (pre_dust_db db t p b) DUSTACCT with
          | none =>
            have hres := do_trade_commit_nodust db now t p b hb hg1 hg2 hd
            rw [hres]
            have hdb : dustBal db = 0 := by
              rw [dustBal, ← fetchone_pre_dust db t p b hn, hd]
              rfl
            have hdb' : dustBal (pre_dust_db db t p b) = 0 := by rw [dustBal, hd]; rfl
            rw [hdb, hdb']
            simp [dust_credit, trade_commits, hres, trades_pre_dust]
          | some d =>
            have hres := do_trade_commit db now t p b d hb hg1 hg2 hd
            rw [hres]
            have hdb : dustBal db = d := by
              rw [dustBal, ← fetchone_pre_dust db t p b hn, hd]
              rfl
            rw [dustBal_post_trade, hdb]
            have hcommit : trade_commits db now t (.ok (some p)) = true := by
              rw [trade_commits, hres]
              simp [trades_post_trade]
            rw [dust_credit, if_pos hcommit]

/-- Over a whole sequence of queued trades, the dust account's balance
moves by the sum of the per-trade credits. -/
theorem dustBal_run_trades (now : ℤ) (l : List (Trade × Except PyErr (Option ℚ))) :
    ∀ db : DB, (∀ tp ∈ l, tp.1.nick ≠ DUSTACCT) →
      dustBal (run_trades db now l) = dustBal db + total_dust_credits db now l := by
  induction l with
  | nil => intro db _; simp [run_trades, total_dust_credits]
  | cons tp rest ih =>
    intro db h
    rw [run_trades, total_dust_credits,
      ih _ (fun x hx => h x (List.mem_cons_of_mem _ hx)),
      dustBal_do_trade db now tp.1 tp.2 (h tp (List.mem_cons_self _ _))]
    ring

/-- Every persisted balance and every persisted holding count is
non-negative. -/
def NonNegLedger (db : DB) : Prop :=
  (∀ r ∈ db.balances, 0 ≤ r.2) ∧ (∀ r ∈ db.holdings, 0 ≤ r.2.2)

theorem get_holding_nonneg {db : DB} (h : NonNegLedger db) (nick symbol : String) :
    0 ≤ get_holding db nick symbol := by
  rw [get_holding]
  cases hf : db.holdings.find? (fun r => r.1 = nick ∧ r.2.1 = symbol) with
  | none => exact le_refl 0
  | some r => exact h.2 r (List.mem_of_find?_eq_some hf)

theorem fetchone_bal_nonneg {db : DB} (h : NonNegLedger db) {nick : String} {b : ℤ}
    (hb : fetchone_bal db nick = some b) : 0 ≤ b := by
  rw [fetchone_bal] at hb
  cases hf : db.balances.find? (fun r => r.1 = nick) with
  | none => rw [hf] at hb; exact absurd hb (by simp)
  | some r =>
    rw [hf] at hb
    have : r.2 = b := by simpa using hb
    exact this ▸ h.1 r (List.mem_of_find?_eq_some hf)

theorem NonNegLedger_set_bal {db : DB} (h : NonNegLedger db) {v : ℤ} (hv : 0 ≤ v)
    (nick : String) : NonNegLedger (set_bal db nick v) := by
  constructor
  · intro r hr
    rw [set_bal] at hr
    rcases List.mem_cons.mp hr with hr | hr
    · rw [hr]; exact hv
    · exact h.1 r (List.mem_of_mem_filter hr)
  · exact h.2

theorem NonNegLedger_set_holding {db : DB} (h : NonNegLedger db) {c : ℤ} (hc : 0 ≤ c)
    (nick symbol : String) : NonNegLedger (set_holding db nick symbol c) := by
  constructor
  · exact h.1
  · intro r hr
    rw [set_holding] at hr
    rcases List.mem_cons.mp hr with hr | hr
    · rw [hr]; exact hc
    · exact h.2 r (List.mem_of_mem_filter hr)

theorem NonNegLedger_log_trade {db : DB} (h : NonNegLedger db) (nick : String) (tm : ℤ)
    (ty symbol : String) (count price : ℤ) :
    NonNegLedger (log_trade db nick tm ty symbol count price) := h

theorem tcost_nonneg {p : ℚ} (hp : 0 ≤ p) {a : ℤ} (ha : 0 ≤ a) : 0 ≤ tcost p a := by
  rw [tcost]
  exact rceil_nonneg (by positivity)

/-- One `do_trade` call preserves non-negativity of all balances and
holdings, provided the requested amount is positive and the quoted price
(if the quote succeeded) is non-negative. -/
theorem NonNegLedger_do_trade (db : DB) (now : ℤ) (t : Trade)
    (pr : Except PyErr (Option ℚ)) (h : NonNegLedger db) (hamt : 0 < t.amount)
    (hp : ∀ p, pr = .ok (some p) → 0 ≤ p) :
    NonNegLedger (do_trade db now t pr).1 := by
  match pr with
  | .error e => rw [do_trade_fetcherr]; exact h
  | .ok none => rw [do_trade_nonequote]; exact h
  | .ok (some p) =>
    have hp' : 0 ≤ p := hp p rfl
    cases hb : fetchone_bal db t.nick with
    | none => rw [do_trade_nonick db now t p hb]; exact h
    | some b =>
      by_cases hg1 : t.buy = true ∧ b < tcost p t.amount
      · rw [do_trade_cantafford db now t p b hb hg1.1 hg1.2]; exact h
      · by_cases hg2 : t.buy = false ∧ t.amount > get_holding db t.nick t.symbol
        · rw [do_trade_notenough db now t p b hb hg2.1 hg2.2]; exact h
        · have hpre : NonNegLedger (pre_dust_db db t p b) := by
            rw [pre_dust_db]
            refine NonNegLedger_set_holding (NonNegLedger_set_bal h ?_ _) ?_ _ _
            · cases hbuy : t.buy with
              | true =>
                rw [if_pos rfl]
                have : ¬ b < tcost p t.amount := fun hlt => hg1 ⟨hbuy, hlt⟩
                omega
              | false =>
                rw [if_neg (by simp)]
                have := fetchone_bal_nonneg h hb
                have := tcost_nonneg hp' (le_of_lt hamt)
                omega
            · cases hbuy : t.buy with
              | true =>
                rw [if_pos rfl]
                have := get_holding_nonneg h t.nick t.symbol
                omega
              | false =>
                rw [if_neg (by simp)]
                have : ¬ t.amount > get_holding db t.nick t.symbol :=
                  fun hgt => hg2 ⟨hbuy, hgt⟩
                omega
          cases hd : fetchone_bal (pre_dust_db db t p b) DUSTACCT with
          | none => rw [do_trade_commit_nodust db now t p b hb hg1 hg2 hd]; exact hpre
          | some d =>
            rw [do_trade_commit db now t p b d hb hg1 hg2 hd, post_trade_db]
            refine NonNegLedger_log_trade
              (NonNegLedger_set_bal hpre ?_ _) _ _ _ _ _ _
            have hd0 : 0 ≤ d := fetchone_bal_nonneg hpre hd
            have : 0 ≤ truncInt (dust_fragment p t.amount * 100) :=
              truncInt_nonneg (by rw [dust_fragment]; positivity)
            omega

/-- Non-negativity is preserved along any queued-trade sequence. -/
theorem NonNegLedger_run_trades (now : ℤ) (l : List (Trade × Except PyErr (Option ℚ))) :
    ∀ db : DB, NonNegLedger db →
      (∀ tp ∈ l, 0 < tp.1.amount ∧ ∀ p, tp.2 = .ok (some p) → 0 ≤ p) →
      NonNegLedger (run_trades db now l) := by
  induction l with
  | nil => intro db h _; exact h
  | cons tp rest ih =>
    intro db h hl
    rw [run_trades]
    exact ih _ (NonNegLedger_do_trade db now tp.1 tp.2 h
        (hl tp (List.mem_cons_self _ _)).1 (hl tp (List.mem_cons_self _ _)).2)
      (fun x hx => hl x (List.mem_cons_of_mem _ hx))

theorem specStep_done (target : ℤ) (rows : List TradeRow) (c s : ℤ) :
    rows.foldl (specStep target) (c, s, true) = (c, s, true) := by
  induction rows with
  | nil => rfl
  | cons row rest ih => rw [List.foldl_cons, specStep]; exact ih

theorem sign_if (c : Prop) [Decidable c] (x : ℤ) :
    (if c then (1 : ℤ) else -1) * x = if c then x else -x := by
  split <;> ring

theorem avgbuy_loop_eq_specWalk (target : ℤ) (rows : List TradeRow) :
    ∀ c s : ℤ, avgbuy_loop target rows c s =
      ((rows.foldl (specStep target) (c, s, false)).1,
       (rows.foldl (specStep target) (c, s, false)).2.1) := by
  induction rows with
  | nil => intro c s; rfl
  | cons row rest ih =>
    intro c s
    rw [avgbuy_loop, List.foldl_cons, specStep]
    simp only [Bool.false_eq_true, if_false]
    rw [mul_comm row.count, mul_comm row.price, sign_if, sign_if]
    by_cases hc : c + (if row.type = "buy" then row.count else -row.count) = target
    · rw [if_pos hc]
      rw [show (decide ((c + if row.type = "buy" then row.count else -row.count) = target)) =
          true from by simpa using hc]
      rw [specStep_done]
    · rw [if_neg hc]
      rw [show (decide ((c + if row.type = "buy" then row.count else -row.count) = target)) =
          false from by simpa using hc]
      exact ih _ _

/-! ## Minimality of the sweep's selected row -/

theorem price_updater_row_min (db : DB) (y : PriceRow) (h : price_updater_row db = some y) :
    y ∈ db.prices ∧ (held_symbols db).contains y.symbol = true ∧
      ∀ r ∈ db.prices, (held_symbols db).contains r.symbol = true → y.time ≤ r.time := by
  rw [price_updater_row] at h
  set fl := db.prices.filter (fun r => (held_symbols db).contains r.symbol) with hfl
  have hsorted : List.Sorted byTimeAsc (fl.insertionSort byTimeAsc) :=
    List.sorted_insertionSort byTimeAsc fl
  cases hs : fl.insertionSort byTimeAsc with
  | nil => rw [hs] at h; exact absurd h (by simp)
  | cons z zs =>
    rw [hs] at h
    have hyz : z = y := by simpa using h
    subst hyz
    have hzmem : z ∈ fl := (List.mem_insertionSort byTimeAsc).mp (hs ▸ List.mem_cons_self z zs)
    have hz1 : z ∈ db.prices := List.mem_of_mem_filter hzmem
    have hz2 : (held_symbols db).contains z.symbol = true := by
      have := List.of_mem_filter hzmem
      simpa using this
    refine ⟨hz1, hz2, fun r hr hrheld => ?_⟩
    have hrfl : r ∈ fl := List.mem_filter.mpr ⟨hr, by simpa using hrheld⟩
    have : r ∈ z :: zs := hs ▸ (List.mem_insertionSort byTimeAsc).mpr hrfl
    rcases List.mem_cons.mp this with hEq | hmem
    · rw [hEq]
    · exact List.rel_of_sorted_cons (hs ▸ hsorted) r hmem

/-! ## Counting lemmas for the nightly snapshot -/

/-- Number of history rows for a given nick and day. -/
def countDay (hist : List HistRow) (nick day : String) : ℕ :=
  hist.countP (fun h => h.nick = nick ∧ h.day = day)

theorem countP_key_nodup {l : List (String × ℤ)} (hnd : (l.map (fun r => r.1)).Nodup)
    {n : String} (hn : n ∈ l.map (fun r => r.1)) :
    l.countP (fun r => r.1 = n) = 1 := by
  induction l with
  | nil => exact absurd hn (by simp)
  | cons x xs ih =>
    rw [List.map_cons, List.nodup_cons] at hnd
    by_cases hx : x.1 = n
    · rw [List.countP_cons, if_pos (by simpa using hx)]
      have h0 : xs.countP (fun r => r.1 = n) = 0 := by
        rw [List.countP_eq_zero]
        intro r hr hrn
        apply hnd.1
        have hr1 : r.1 = n := by simpa using hrn
        rw [hx, ← hr1]
        exact List.mem_map_of_mem (fun r => r.1) hr
      rw [h0]
    · rw [List.countP_cons, if_neg (by simpa using hx)]
      have hn' : n ∈ xs.map (fun r => r.1) := by
        rcases List.mem_cons.mp hn with h | h
        · exact absurd h.symm hx
        · exact h
      rw [ih hnd.2 hn']

theorem nightly_loop_balances (priceOf : String → ℚ) (day : String)
    (rows : List (String × ℤ)) : ∀ db : DB,
    (nightly_loop priceOf day rows db).1.balances = db.balances := by
  induction rows with
  | nil => intro db; rfl
  | cons r rest ih =>
    intro db
    rw [nightly_loop]
    cases report_total priceOf db r.1 with
    | error e => rfl
    | ok total => exact ih _

theorem get_bal_ok_of_fetchone {db : DB} {nick : String} {b : ℤ}
    (h : fetchone_bal db nick = some b) : get_bal db nick = .ok b := by
  rw [get_bal, h]

theorem report_total_ok_of_fetchone (priceOf : String → ℚ) {db : DB} {nick : String} {b : ℤ}
    (h : fetchone_bal db nick = some b) : ∃ v, report_total priceOf db nick = .ok v := by
  rw [report_total, build_report, get_bal, h]
  cases get_latest_hist_bal db nick <;> exact ⟨_, rfl⟩

theorem nightly_loop_spec (priceOf : String → ℚ) (day : String)
    (rows : List (String × ℤ)) : ∀ db : DB,
    (∀ r ∈ rows, (fetchone_bal db r.1).isSome) →
    (nightly_loop priceOf day rows db).2 = none ∧
    ∀ n : String, countDay (nightly_loop priceOf day rows db).1.history n day =
      countDay db.history n day + rows.countP (fun r => r.1 = n) := by
  induction rows with
  | nil =>
    intro db _
    exact ⟨rfl, fun n => by simp [nightly_loop]⟩
  | cons r rest ih =>
    intro db hr
    have hsome : (fetchone_bal db r.1).isSome := hr r (List.mem_cons_self _ _)
    obtain ⟨b, hb⟩ := Option.isSome_iff_exists.mp hsome
    obtain ⟨v, hv⟩ := report_total_ok_of_fetchone priceOf hb
    rw [nightly_loop, hv]
    set db' : DB := { db with history := db.history ++ [⟨r.1, day, v⟩] } with hdb'
    have hfetch' : ∀ x ∈ rest, (fetchone_bal db' x.1).isSome := fun x hx =>
      hr x (List.mem_cons_of_mem _ hx)
    obtain ⟨he, hc⟩ := ih db' hfetch'
    refine ⟨he, fun n => ?_⟩
    rw [hc n, List.countP_cons]
    have : countDay db'.history n day =
        countDay db.history n day + (if r.1 = n then 1 else 0) := by
      rw [hdb', countDay, countDay, List.countP_append, List.countP_cons, List.countP_nil]
      by_cases hrn : r.1 = n
      · rw [if_pos hrn, if_pos (by simp [hrn])]
      · rw [if_neg hrn, if_neg (by simp [hrn])]
    rw [this]
    by_cases hrn : r.1 = n
    · rw [if_pos hrn, if_pos (by simp [hrn])]
      omega
    · rw [if_neg hrn, if_neg (by simp [hrn])]
      omega

/-! ## Claim theorems -/

/-- C2: when the upstream fetch returns an empty result (`fetch_priceinfo`
gives `None`), the price lookup does NOT yield a distinct unknown-symbol
outcome: `get_priceinfo_cached` raises `AttributeError` on
`None.items()`, the surrounding `try` in `do_trade` catches it, and the
user receives exactly the same "invalid symbol or api failure" reply
that a transport failure produces — the dedicated "invalid symbol '…'"
branch is bypassed.  This contradicts the claim; the dead branch at
line 240 shows the distinct outcome was intended, so the code is at
fault. -/
theorem unknown_symbol_merged_with_fetch_failure :
    (get_priceinfo_cached dbAlice 0 "XYZ" 300 (.ok none)).1 = .error .attributeError ∧
    (do_trade_full dbAlice 0 300 ⟨"alice", true, "XYZ", 1, "#chan"⟩ (.ok none)).2.1 =
      [.apifailure "#chan" "alice"] ∧
    (do_trade_full dbAlice 0 300 ⟨"alice", true, "XYZ", 1, "#chan"⟩ (.error .fetchError)).2.1 =
      [.apifailure "#chan" "alice"] :=
  ⟨rfl, rfl, rfl⟩

/-- C3: a cache row younger than the threshold is returned without
invoking upstream; a stale row is a cache miss; on a miss the upstream
fetch is invoked (exactly the one call the code contains), a successful
fetch replaces the row (the symbol's row afterwards carries the new
timestamp and payload) and is returned fresh, and a fetch failure
propagates unchanged with no stale fallback. -/
theorem cache_freshness (db : DB) (now thresh : ℤ) (symbol : String) (fetch : FetchOutcome) :
    (∀ row : PriceRow, db.prices.find? (fun r => r.symbol = symbol) = some row →
        now - row.time ≤ thresh →
        get_priceinfo_cached db now symbol thresh fetch = (.ok row.data, db, false)) ∧
    (∀ row : PriceRow, db.prices.find? (fun r => r.symbol = symbol) = some row →
        now - row.time > thresh → get_cache_priceinfo db now symbol thresh = none) ∧
    (get_cache_priceinfo db now symbol thresh = none →
        (get_priceinfo_cached db now symbol thresh fetch).2.2 = true ∧
        (∀ d, fetch = .ok (some d) →
            get_priceinfo_cached db now symbol thresh fetch =
              (.ok d, set_cache_priceinfo db now symbol d, true) ∧
            (set_cache_priceinfo db now symbol d).prices.find? (fun r => r.symbol = symbol) =
              some ⟨symbol, now, d⟩) ∧
        (∀ e, fetch = .error e →
            get_priceinfo_cached db now symbol thresh fetch = (.error e, db, true))) := by
  refine ⟨?_, ?_, ?_⟩
  · intro row hrow hage
    have hc : get_cache_priceinfo db now symbol thresh = some row.data := by
      rw [get_cache_priceinfo, hrow]
      exact if_neg (by omega)
    rw [get_priceinfo_cached.eq_def, hc]
  · intro row hrow hage
    rw [get_cache_priceinfo, hrow]
    exact if_pos hage
  · intro hmiss
    refine ⟨?_, ?_, ?_⟩
    · rw [get_priceinfo_cached.eq_def, hmiss]
      cases fetch with
      | error e => rfl
      | ok o => cases o <;> rfl
    · intro d hd
      subst hd
      refine ⟨by rw [get_priceinfo_cached.eq_def, hmiss], ?_⟩
      rw [set_cache_priceinfo]
      exact List.find?_cons_of_pos _ (by simp)
    · intro e he
      subst he
      rw [get_priceinfo_cached.eq_def, hmiss]

/-- Witness for C3 at a concrete cache: a row for `MSFT` at time `100`
is a hit at `now = 110`, threshold `60`. -/
theorem cache_freshness_witness :
    get_priceinfo_cached dbCached 110 "MSFT" 60 (.error .fetchError) =
      (.ok ⟨50⟩, dbCached, false) :=
  (cache_freshness dbCached 110 60 "MSFT" (.error .fetchError)).1
    ⟨"MSFT", 100, ⟨50⟩⟩ rfl (by decide)

/-- C7: `calc_user_avgbuy` computes exactly the specified backward walk:
newest-to-oldest accumulation of signed count and spent, stopping as
soon as the running count reaches the currently-held count, returning
`spent / 100 / count` and zero for a zero terminal count. -/
theorem avgbuy_matches_spec (db : DB) (nick symbol : String) :
    calc_user_avgbuy db nick symbol = averageBuyPrice_spec db nick symbol := by
  have h := avgbuy_loop_eq_specWalk (get_holding db nick symbol)
    (trades_desc db nick symbol) 0 0
  rw [calc_user_avgbuy, averageBuyPrice_spec, h, ← specWalk]

/-- C10: a portfolio report for a nick with no balances row dies inside
`get_bal` (`None["cents"]` raises `TypeError`); the exception unwinds
`build_report` and `do_report`, is swallowed by the executor loop, and
no reply of any kind is sent. -/
theorem missing_account_report_silent (priceOf : String → ℚ) (db : DB)
    (nick sender replyto : String) (full : Bool)
    (h : fetchone_bal db nick = none) :
    get_bal db nick = .error .typeError ∧
    do_report priceOf db nick sender replyto full = .error .typeError ∧
    trader_portreport priceOf db nick sender replyto full = [] := by
  have hg : get_bal db nick = .error .typeError := by rw [get_bal, h]
  have hb : build_report priceOf db nick = .error .typeError := by rw [build_report, hg]
  exact ⟨hg, by rw [do_report, hb], by rw [trader_portreport, do_report, hb]⟩

/-- Witness for C10: `ghost` has no balances row in `dbCached`, so a
report request produces no reply. -/
theorem missing_account_report_silent_witness :
    trader_portreport (fun _ => 0) dbCached "ghost" "ghost" "#chan" false = [] :=
  (missing_account_report_silent (fun _ => 0) dbCached "ghost" "ghost" "#chan" false rfl).2.2

/-- C4 counterexample: symbol `A` is held (count > 0) and has no cached
quote at all — by the claim it is "oldest or absent" and should be the
one refreshed — yet the sweep's query runs over `stockplay_prices`, so
it selects `B` (the oldest *cached* held symbol) and can never select a
held symbol with no cache row. -/
theorem sweep_absent_counterexample :
    "A" ∈ held_symbols dbSweep ∧
    dbSweep.prices.find? (fun r => r.symbol = "A") = none ∧
    price_updater_select dbSweep = some "B" ∧
    price_updater_select dbSweep ≠ some "A" := by
  refine ⟨by decide, rfl, rfl, by decide⟩

/-- C4 amended: each sweep iteration selects the held symbol whose
*existing* cache row is oldest — held symbols with no cache row are
never candidates — and a symbol with no current holder is never
selected; the forced refresh is issued as `get_price(sym, 0)`, whose
`thresh or 60` default turns the threshold into 60 seconds rather than
an unconditional upstream call. -/
theorem sweep_selects_oldest_cached_held (db : DB) (s : String)
    (h : price_updater_select db = some s) :
    s ∈ held_symbols db ∧
    (∃ row ∈ db.prices, row.symbol = s ∧
        ∀ r ∈ db.prices, r.symbol ∈ held_symbols db → row.time ≤ r.time) ∧
    effthresh (some 0) = 60 := by
  rw [price_updater_select] at h
  cases hrow : price_updater_row db with
  | none => rw [hrow] at h; exact absurd h (by simp)
  | some y =>
    rw [hrow] at h
    have hs : y.symbol = s := by simpa using h
    obtain ⟨hy1, hy2, hy3⟩ := price_updater_row_min db y hrow
    refine ⟨?_, ⟨y, hy1, hs, fun r hr hrheld => hy3 r hr ?_⟩, rfl⟩
    · rw [← hs]
      simpa using hy2
    · simpa using hrheld

/-- Witness for C4's amended theorem at the concrete sweep database. -/
theorem sweep_selects_oldest_cached_held_witness :
    "B" ∈ held_symbols dbSweep ∧
    (∃ row ∈ dbSweep.prices, row.symbol = "B" ∧
        ∀ r ∈ dbSweep.prices, r.symbol ∈ held_symbols dbSweep → row.time ≤ r.time) ∧
    effthresh (some 0) = 60 :=
  sweep_selects_oldest_cached_held dbSweep "B" rfl

/-- C5: a buy with insufficient cash and a sell with insufficient shares
abort with only the corresponding reply — every table of the database,
including the trade log and the dust account, is returned untouched —
and a trade that commits (appends a `TradeRecord`) must have passed the
corresponding check. -/
theorem trade_validation_guards (db : DB) (now : ℤ) (t : Trade) (p : ℚ) (b : ℤ)
    (hb : fetchone_bal db t.nick = some b) :
    (t.buy = true → b < tcost p t.amount →
        do_trade db now t (.ok (some p)) =
          (db, [.cantafford t.replyto t.nick (tcost p t.amount)], none)) ∧
    (t.buy = false → t.amount > get_holding db t.nick t.symbol →
        do_trade db now t (.ok (some p)) = (db, [.notenough t.replyto t.nick], none)) ∧
    (trade_commits db now t (.ok (some p)) = true →
        (t.buy = true → tcost p t.amount ≤ b) ∧
        (t.buy = false → t.amount ≤ get_holding db t.nick t.symbol)) := by
  refine ⟨fun hbuy hlt => do_trade_cantafford db now t p b hb hbuy hlt,
    fun hsell hgt => do_trade_notenough db now t p b hb hsell hgt, fun hcommit => ?_⟩
  by_cases hg1 : t.buy = true ∧ b < tcost p t.amount
  · rw [trade_commits, do_trade_cantafford db now t p b hb hg1.1 hg1.2] at hcommit
    simp at hcommit
  · by_cases hg2 : t.buy = false ∧ t.amount > get_holding db t.nick t.symbol
    · rw [trade_commits, do_trade_notenough db now t p b hb hg2.1 hg2.2] at hcommit
      simp at hcommit
    · constructor
      · intro hbuy
        by_contra hlt
        exact hg1 ⟨hbuy, by omega⟩
      · intro hsell
        by_contra hgt
        exact hg2 ⟨hsell, by omega⟩

/-- Witness for C5: `bob` with 500 cents cannot buy one share quoted at
`$10.00` (1000 cents); the database comes back unchanged with only the
refusal reply. -/
theorem trade_validation_guards_witness :
    do_trade dbPoor 0 tradePoor (.ok (some 10)) =
      (dbPoor, [.cantafford "#chan" "bob" (tcost 10 1)], none) :=
  (trade_validation_guards dbPoor 0 tradePoor 10 500 rfl).1 rfl (by
    show (500 : ℤ) < tcost 10 1
    rw [tcost, rceil_eval]
    norm_num)

/-- C1 counterexample: for a one-share buy quoted at `$10.005` the
rounding fragment is `dust = 0.5` (half a cent), but the committed trade
credits `int(dust * 100) = 50` whole cents to the dust account — one
hundred times the fragment — so the credited amount does not equal the
fragment and the sums cannot agree to the cent. -/
theorem dust_credit_counterexample :
    dust_fragment quoteDust 1 = 1/2 ∧
    trade_commits dbAlice 7 tradeABC (.ok (some quoteDust)) = true ∧
    dustBal (do_trade dbAlice 7 tradeABC (.ok (some quoteDust))).1 = 50 ∧
    ¬ ((50 : ℚ) = dust_fragment quoteDust 1) := by
  have hfrag : dust_fragment quoteDust 1 = 1/2 := by
    norm_num [dust_fragment, quoteDust, rceil_eval, mkRat, Rat.normalize,
      abs_of_nonneg, abs_of_nonpos]
  refine ⟨hfrag, ?_, ?_, by rw [hfrag]; norm_num⟩
  · norm_num [trade_commits, do_trade, dbAlice, tradeABC, quoteDust, fetchone_bal,
      get_holding, set_bal, set_holding, log_trade, rceil_eval, truncInt_eval, DUSTACCT,
      List.find?, List.filter, mkRat, Rat.normalize, abs_of_nonneg, abs_of_nonpos]
    decide
  · norm_num [dustBal, do_trade, dbAlice, tradeABC, quoteDust, fetchone_bal,
      get_holding, set_bal, set_holding, log_trade, rceil_eval, truncInt_eval, DUSTACCT,
      List.find?, List.filter, mkRat, Rat.normalize, abs_of_nonneg, abs_of_nonpos]

/-- C1 amended: each committed trade credits `int(dust * 100)` cents —
the fragment re-scaled by 100 and truncated, not the fragment itself —
and over any queued-trade sequence (with no trade placed directly on the dust
account) the dust account's total increase is exactly the sum of these
per-trade credits. -/
theorem dust_accounting (db : DB) (now : ℤ) (l : List (Trade × Except PyErr (Option ℚ)))
    (h : ∀ tp ∈ l, tp.1.nick ≠ DUSTACCT) :
    dustBal (run_trades db now l) = dustBal db + total_dust_credits db now l ∧
    (∀ (t : Trade) (p : ℚ), trade_commits db now t (.ok (some p)) = true →
        dust_credit db now t (.ok (some p)) = truncInt (dust_fragment p t.amount * 100)) :=
  ⟨dustBal_run_trades now l db h, fun _ p hc => by rw [dust_credit, if_pos hc]⟩

/-- Witness for C1's amended theorem at a one-trade sequence. -/
theorem dust_accounting_witness :
    dustBal (run_trades dbAlice 7 [(tradeABC, .ok (some quoteDust))]) =
      dustBal dbAlice + total_dust_credits dbAlice 7 [(tradeABC, .ok (some quoteDust))] :=
  (dust_accounting dbAlice 7 [(tradeABC, .ok (some quoteDust))] (by
    intro tp htp
    rw [List.mem_singleton] at htp
    subst htp
    decide)).1

/-- C6: starting from any ledger with non-negative balances and holdings
(in particular a freshly bootstrapped account, whose starting balance is
non-negative), any sequence of queued trades with positive amounts and
non-negative quotes leaves every persisted balance and every holding
count non-negative. -/
theorem ledger_nonnegative (db : DB) (now startbalance : ℤ) (nick : String)
    (l : List (Trade × Except PyErr (Option ℚ)))
    (hdb : NonNegLedger db) (hsb : 0 ≤ startbalance)
    (hl : ∀ tp ∈ l, 0 < tp.1.amount ∧ ∀ p, tp.2 = .ok (some p) → 0 ≤ p) :
    NonNegLedger (run_trades (check_nick db startbalance nick) now l) := by
  refine NonNegLedger_run_trades now l _ ?_ hl
  rw [check_nick]
  split
  · exact hdb
  · exact NonNegLedger_set_bal hdb (mul_nonneg hsb (by norm_num)) nick

/-- Witness for C6: a fresh ledger, `alice` bootstrapped with `$20000`,
one one-share buy at `$10`. -/
theorem ledger_nonnegative_witness :
    NonNegLedger (run_trades (check_nick ⟨[(DUSTACCT, 0)], [], [], [], []⟩ 20000 "alice") 7
      [(tradeABC, .ok (some 10))]) :=
  ledger_nonnegative ⟨[(DUSTACCT, 0)], [], [], [], []⟩ 7 20000 "alice"
    [(tradeABC, .ok (some 10))]
    (by
      constructor
      all_goals intro r hr
      all_goals simp at hr
      all_goals simp [hr])
    (by norm_num)
    (by
      intro tp htp
      rw [List.mem_singleton] at htp
      subst htp
      refine ⟨by decide, fun p hp => ?_⟩
      have h10 : (10 : ℚ) = p := by simpa using hp
      rw [← h10]
      norm_num)

/-- C8 counterexample: a buy with a malformed symbol and a sell with a
non-positive quantity are dropped without any reply and without any
queued work — `cmd_buy`/`cmd_sell` simply `return` — so these
validation failures are NOT reported back to the requesting user. -/
theorem silent_drop_counterexample :
    checksym "bad!" = none ∧
    cmd_buy dbAlice 20000 "alice" 5 "bad!" "#chan" = (dbAlice, []) ∧
    cmd_sell dbAlice 20000 "alice" (-3) "ABC" "#chan" = (dbAlice, []) := by
  refine ⟨by decide, by decide, by decide⟩

/-- C8 amended: insufficient funds, insufficient shares and quote
failures (unknown symbol included, via the merged api-failure reply) are
each reported with a single reply, mutate nothing and queue no retry;
malformed-symbol and non-positive-quantity failures are silently dropped
(no reply, no queued trade), leaving the database exactly as the
account bootstrap left it. -/
theorem validation_failure_handling (db : DB) (now startbalance : ℤ) (t : Trade) (p : ℚ)
    (b : ℤ) (nick : String) (amount : ℤ) (symbolArg chan : String) :
    (∀ e, do_trade db now t (.error e) = (db, [.apifailure t.replyto t.nick], none)) ∧
    (fetchone_bal db t.nick = some b → t.buy = true → b < tcost p t.amount →
        do_trade db now t (.ok (some p)) =
          (db, [.cantafford t.replyto t.nick (tcost p t.amount)], none)) ∧
    (fetchone_bal db t.nick = some b → t.buy = false →
        t.amount > get_holding db t.nick t.symbol →
        do_trade db now t (.ok (some p)) = (db, [.notenough t.replyto t.nick], none)) ∧
    (checksym symbolArg = none ∨ amount ≤ 0 →
        cmd_buy db startbalance nick amount symbolArg chan =
          (check_nick db startbalance nick, []) ∧
        cmd_sell db startbalance nick amount symbolArg chan =
          (check_nick db startbalance nick, [])) := by
  refine ⟨fun e => do_trade_fetcherr db now t e,
    fun hb hbuy hlt => do_trade_cantafford db now t p b hb hbuy hlt,
    fun hb hsell hgt => do_trade_notenough db now t p b hb hsell hgt,
    fun hbad => ?_⟩
  rcases hbad with hsym | hamt
  · rw [cmd_buy, cmd_sell, hsym]
    exact ⟨rfl, rfl⟩
  · rw [cmd_buy, cmd_sell]
    cases checksym symbolArg with
    | none => exact ⟨rfl, rfl⟩
    | some sym => exact ⟨by simp [hamt], by simp [hamt]⟩

/-- Witness for C8's amended theorem: the silent-drop conjunct at a
malformed symbol, and the reported-refusal conjunct at the
insufficient-funds scenario. -/
theorem validation_failure_handling_witness :
    cmd_buy dbAlice 20000 "alice" 5 "ok?" "#chan" = (check_nick dbAlice 20000 "alice", []) ∧
    do_trade dbPoor 0 tradePoor (.error .fetchError) =
      (dbPoor, [.apifailure "#chan" "bob"], none) :=
  ⟨((validation_failure_handling dbAlice 0 20000 tradePoor 10 500 "alice" 5 "ok?"
      "#chan").2.2.2 (Or.inl (by decide))).1,
   (validation_failure_handling dbPoor 0 20000 tradePoor 10 500 "alice" 5 "ok?"
      "#chan").1 .fetchError⟩

/-- C9: on a day with no existing snapshot rows, one nightly sweep
completes without error and inserts exactly one `(nick, day)` history
row per balances row, and running the sweep again for the same day is a
no-op returning the database unchanged. -/
theorem nightly_snapshot_idempotent (priceOf : String → ℚ) (db : DB) (day : String)
    (hnd : (db.balances.map (fun r => r.1)).Nodup)
    (hfresh : ∀ h ∈ db.history, h.day ≠ day) :
    (record_nightly_balances priceOf db day).2 = none ∧
    (∀ n ∈ db.balances.map (fun r => r.1),
        countDay (record_nightly_balances priceOf db day).1.history n day = 1) ∧
    record_nightly_balances priceOf (record_nightly_balances priceOf db day).1 day =
      ((record_nightly_balances priceOf db day).1, none) := by
  have hany0 : ∀ r : String × ℤ,
      db.history.any (fun h => h.nick = r.1 ∧ h.day = day) = false := by
    intro r
    rw [List.any_eq_false]
    intro hh hhmem
    simp only [decide_eq_true_eq, not_and]
    exact fun _ => hfresh hh hhmem
  have hrows : db.balances.filter
      (fun r => ¬ db.history.any (fun h => h.nick = r.1 ∧ h.day = day)) = db.balances := by
    apply List.filter_eq_self.mpr
    intro r _
    simp only [hany0 r]
    decide
  have hfetch : ∀ r ∈ db.balances, (fetchone_bal db r.1).isSome := by
    intro r hr
    rw [fetchone_bal]
    cases hfind : db.balances.find? (fun q => q.1 = r.1) with
    | none =>
      have hsome : (db.balances.find? (fun q => q.1 = r.1)).isSome := by
        rw [List.find?_isSome]
        exact ⟨r, hr, by simp⟩
      rw [hfind] at hsome
      exact absurd hsome (by simp)
    | some x => rfl
  obtain ⟨he, hcount⟩ := nightly_loop_spec priceOf day db.balances db hfetch
  have hrec : record_nightly_balances priceOf db day = nightly_loop priceOf day db.balances db := by
    rw [record_nightly_balances, hrows]
  have hzero : ∀ n, countDay db.history n day = 0 := by
    intro n
    rw [countDay, List.countP_eq_zero]
    intro hh hhmem hhp
    have : hh.nick = n ∧ hh.day = day := by simpa using hhp
    exact hfresh hh hhmem this.2
  have hone : ∀ n ∈ db.balances.map (fun r => r.1),
      countDay (record_nightly_balances priceOf db day).1.history n day = 1 := by
    intro n hn
    rw [hrec, hcount n, hzero n, countP_key_nodup hnd hn]
  refine ⟨by rw [hrec]; exact he, hone, ?_⟩
  have hbal : (record_nightly_balances priceOf db day).1.balances = db.balances := by
    rw [hrec, nightly_loop_balances]
  have hall : (record_nightly_balances priceOf db day).1.balances.filter
      (fun r => ¬ (record_nightly_balances priceOf db day).1.history.any
        (fun h => h.nick = r.1 ∧ h.day = day)) = [] := by
    rw [hbal]
    apply List.filter_eq_nil_iff.mpr
    intro r hr
    have h1 : countDay (record_nightly_balances priceOf db day).1.history r.1 day = 1 :=
      hone r.1 (List.mem_map_of_mem _ hr)
    rw [countDay] at h1
    have hpos : 0 < (record_nightly_balances priceOf db day).1.history.countP
        (fun h => h.nick = r.1 ∧ h.day = day) := by omega
    obtain ⟨hh, hhmem, hhp⟩ := List.countP_pos_iff.mp hpos
    have hany : (record_nightly_balances priceOf db day).1.history.any
        (fun h => h.nick = r.1 ∧ h.day = day) = true :=
      List.any_eq_true.mpr ⟨hh, hhmem, by simpa using hhp⟩
    simp only [hany]
    decide
  rw [record_nightly_balances, hall]
  rfl

/-- Witness for C9 at a two-account database with an empty history. -/
theorem nightly_snapshot_idempotent_witness :
    (record_nightly_balances (fun _ => 0) dbAlice "2026-01-01").2 = none ∧
    record_nightly_balances (fun _ => 0)
        (record_nightly_balances (fun _ => 0) dbAlice "2026-01-01").1 "2026-01-01" =
      ((record_nightly_balances (fun _ => 0) dbAlice "2026-01-01").1, none) :=
  ⟨(nightly_snapshot_idempotent (fun _ => 0) dbAlice "2026-01-01" (by decide)
      (by intro h hh; simp [dbAlice] at hh)).1,
   (nightly_snapshot_idempotent (fun _ => 0) dbAlice "2026-01-01" (by decide)
      (by intro h hh; simp [dbAlice] at hh)).2.2⟩

end StockPlay
